import Mathlib

/-!
Verification of the order-management Teams app (orders service, bot service,
and HTTP/bot handlers) against its specification.

The TypeScript source is shallowly embedded:
  * the Azure `Orders` table is a list of rows (`OrdersTable`); the
    `BotSubscriptions` table is a list of `SubRow`;
  * `createEntity` / `updateEntity(..., "Replace")` / `deleteEntity` /
    `getEntity` are modelled with their Azure semantics (create fails on an
    existing key, replace and delete fail on a missing key); external store
    failures (network, unavailability) are modelled by an explicit fault
    oracle where a claim depends on them;
  * JavaScript numbers used as currency amounts are modelled by `Rat`
    (the code performs no arithmetic on them other than the identity
    coercion `Number(x)`);
  * `async`/`await` sequential code becomes explicit state passing and
    fallible calls return `Except`.
-/

inductive OrderStatus where
  | Submitted | Pending | Processing | Shipped | Delivered | Cancelled
deriving DecidableEq, Repr

/-- The `Order` domain object of `ordersService.ts`. -/
structure Order where
  id : String
  customer : String
  amount : Rat
  status : OrderStatus
  date : String
deriving DecidableEq, Repr

/-- A row of the Azure `Orders` table as written by the service
(`partitionKey`, `rowKey` plus the order fields). -/
structure OrderRow where
  partitionKey : String
  rowKey : String
  id : String
  customer : String
  amount : Rat
  status : OrderStatus
  date : String
deriving DecidableEq, Repr

/-- The `Orders` table, listed in scan order. -/
abbrev OrdersTable := List OrderRow

/-- `Omit<Order, "id">`: the payload of `createOrder`. -/
structure OrderData where
  customer : String
  amount : Rat
  status : OrderStatus
  date : String
deriving DecidableEq, Repr

/-- `Partial<Omit<Order, "id">>`: the patch argument of `updateOrder`. -/
structure OrderPatch where
  customer : Option String
  amount : Option Rat
  status : Option OrderStatus
  date : Option String
deriving DecidableEq, Repr

/-- Store-level failures: the two key-level failures of the Azure table
API plus an external failure injected by a fault oracle. -/
inductive StoreErr where
  | entityAlreadyExists | resourceNotFound | writeFailed | storeUnavailable
deriving DecidableEq, Repr

/-- Decimal digit characters, `String(n)` digit by digit. -/
def digitChar (d : Nat) : Char :=
  match d with
  | 0 => '0' | 1 => '1' | 2 => '2' | 3 => '3' | 4 => '4'
  | 5 => '5' | 6 => '6' | 7 => '7' | 8 => '8' | _ => '9'

/-- The decimal digits of `n`, most significant first: `String(n)` in JS. -/
def natDigits (n : Nat) : List Char :=
  if h : n < 10 then [digitChar n]
  else natDigits (n / 10) ++ [digitChar (n % 10)]
decreasing_by exact Nat.div_lt_self (by omega) (by omega)

/-- `String.prototype.padStart(3, "0")` at the character-list level. -/
def padTo3 (cs : List Char) : List Char :=
  List.replicate (3 - cs.length) '0' ++ cs

/-- The characters of the order id `` `ORD-${String(n).padStart(3, "0")}` ``. -/
def ordIdChars (n : Nat) : List Char :=
  'O' :: 'R' :: 'D' :: '-' :: padTo3 (natDigits n)

/-- The order id `` `ORD-${String(n).padStart(3, "0")}` ``. -/
def ordId (n : Nat) : String := String.mk (ordIdChars n)

/-- The character class `\d` of the row-key regex. -/
def isDigitChar (c : Char) : Bool := 48 ≤ c.toNat && c.toNat ≤ 57

/-- `parseInt` on a string of decimal digits. -/
def parseDigits (cs : List Char) : Nat :=
  cs.foldl (fun a c => a * 10 + (c.toNat - 48)) 0

/-- The row-key scan of `createOrder`: `rowKey.match(/^ORD-(\d+)$/)`
followed by `parseInt(match[1], 10)`. -/
def parseOrdSuffix (s : String) : Option Nat :=
  match s.data with
  | 'O' :: 'R' :: 'D' :: '-' :: rest =>
      if rest.isEmpty then none
      else if rest.all isDigitChar then some (parseDigits rest) else none
  | _ => none

/-- `table.getEntity(PARTITION_KEY, id)`: the first row of the table with
the given partition and row key (`none` models the NotFound rejection). -/
def getEntity (t : OrdersTable) (pk rk : String) : Option OrderRow :=
  t.find? (fun e => e.partitionKey == pk && e.rowKey == rk)

/-- `table.createEntity(row)`: fails if the fault oracle fires (external
store failure) or if the key already exists; otherwise appends the row. -/
def createEntity (faulty : OrderRow → Bool) (t : OrdersTable) (r : OrderRow) :
    Except StoreErr OrdersTable :=
  if faulty r then .error .writeFailed
  else if t.any (fun e => e.partitionKey == r.partitionKey && e.rowKey == r.rowKey) then
    .error .entityAlreadyExists
  else .ok (t ++ [r])

/-- `table.updateEntity(row, "Replace")`: fails if no row has the key,
otherwise replaces the keyed row in place. -/
def updateEntityReplace (t : OrdersTable) (r : OrderRow) :
    Except StoreErr OrdersTable :=
  if t.any (fun e => e.partitionKey == r.partitionKey && e.rowKey == r.rowKey) then
    .ok (t.map (fun e =>
      if e.partitionKey == r.partitionKey && e.rowKey == r.rowKey then r else e))
  else .error .resourceNotFound

/-- The fault-free store oracle (every write the store accepts succeeds). -/
def noFaults : OrderRow → Bool := fun _ => false

/-- `let maxNum = 0; for (entity of listEntities) ... Math.max` —
the maximum numeric suffix among row keys matching `/^ORD-(\d+)$/`. -/
def maxOrdNum (t : OrdersTable) : Nat :=
  t.foldl (fun m e =>
    match parseOrdSuffix e.rowKey with
    | some n => Nat.max m n
    | none => m) 0

/-- The row inserted by `createOrder` for payload `data` on table `t`. -/
def newOrderRow (t : OrdersTable) (data : OrderData) : OrderRow :=
  let id := ordId (maxOrdNum t + 1)
  { partitionKey := "Orders", rowKey := id, id := id,
    customer := data.customer, amount := data.amount,
    status := data.status, date := data.date }

/-- The `Order` object `createOrder` returns for payload `data` on `t`
(`{ id, ...data, amount: Number(data.amount) }`). -/
def newOrderOf (t : OrdersTable) (data : OrderData) : Order :=
  { id := ordId (maxOrdNum t + 1), customer := data.customer,
    amount := data.amount, status := data.status, date := data.date }

/-- `createOrder(connectionString, data, notify?)`: scans the row keys for
the maximal `ORD-` suffix, inserts `max+1` zero-padded to width 3, then
invokes the notification callback with the created order and returns it.
The second component of the result is the list of arguments the `notify`
callback was invoked with (empty when the insert rejected, in which case
the error propagates to the caller). -/
def createOrder (faulty : OrderRow → Bool) (t : OrdersTable) (data : OrderData) :
    Except StoreErr (OrdersTable × Order) × List Order :=
  match createEntity faulty t (newOrderRow t data) with
  | .error e => (.error e, [])
  | .ok t2 => (.ok (t2, newOrderOf t data), [newOrderOf t data])

/-- `N` serialized `createOrder` calls (fault-free store), threading the
table; call `k` uses payload `datas k`. -/
def serialCreates (datas : Nat → OrderData) : Nat → Except StoreErr OrdersTable
  | 0 => .ok []
  | n + 1 =>
    match serialCreates datas n with
    | .error e => .error e
    | .ok t =>
      match (createOrder noFaults t (datas n)).1 with
      | .error e => .error e
      | .ok (t2, _) => .ok t2

/-- The replacement row `updateOrder` writes: patch fields merged over the
existing row via `??`, with `partitionKey`, `rowKey` and `id` reset from
the `id` argument. -/
def mergeRow (id : String) (existing : OrderRow) (patch : OrderPatch) : OrderRow :=
  { partitionKey := "Orders", rowKey := id, id := id,
    customer := patch.customer.getD existing.customer,
    amount := patch.amount.getD existing.amount,
    status := patch.status.getD existing.status,
    date := patch.date.getD existing.date }

/-- The `Order` object `updateOrder` returns (the merged record). -/
def mergedOrder (id : String) (existing : OrderRow) (patch : OrderPatch) : Order :=
  { id := id,
    customer := patch.customer.getD existing.customer,
    amount := patch.amount.getD existing.amount,
    status := patch.status.getD existing.status,
    date := patch.date.getD existing.date }

/-- `updateOrder(connectionString, id, patch)`: reads the existing record
(NotFound rejection propagates when absent), merges the patch over it, and
writes the merged record back with a full `Replace`. -/
def updateOrder (t : OrdersTable) (id : String) (patch : OrderPatch) :
    Except StoreErr (OrdersTable × Order) :=
  match getEntity t "Orders" id with
  | none => .error .resourceNotFound
  | some existing =>
    match updateEntityReplace t (mergeRow id existing patch) with
    | .error e => .error e
    | .ok t2 => .ok (t2, mergedOrder id existing patch)

/-- Well-formedness of the `Orders` table as maintained by every write in
the service: the constant partition key, the `id` column mirroring the row
key, and (as the Azure store itself guarantees) no duplicate row keys. -/
def WFOrders (t : OrdersTable) : Prop :=
  (∀ e ∈ t, e.partitionKey = "Orders" ∧ e.id = e.rowKey) ∧
    (t.map (fun e => e.rowKey)).Nodup

instance (t : OrdersTable) : Decidable (WFOrders t) := by
  unfold WFOrders
  infer_instance

/-- The patch `{status: S}`. -/
def statusPatch (S : OrderStatus) : OrderPatch := ⟨none, none, some S, none⟩

/-- The empty patch `{}`. -/
def emptyPatch : OrderPatch := ⟨none, none, none, none⟩

/-- Demonstration table used by the witnesses: one well-formed row. -/
def demoRow : OrderRow :=
  { partitionKey := "Orders", rowKey := "ORD-001", id := "ORD-001",
    customer := "Contoso Ltd.", amount := 5, status := .Submitted,
    date := "2026-01-04" }

/-- Demonstration table used by the witnesses. -/
def demoTable : OrdersTable := [demoRow]

/-- The `Order` read back from a stored row by the table scans
(`id: entity.rowKey!`, `amount: Number(entity.amount)`). -/
def rowToOrder (e : OrderRow) : Order :=
  { id := e.rowKey, customer := e.customer, amount := e.amount,
    status := e.status, date := e.date }

/-- One insertion step of the sort `(a, b) => b.id.localeCompare(a.id)`
(descending by id; `localeCompare` modelled as the code-unit
lexicographic order on strings). -/
def insertDescBy (o : Order) : List Order → List Order
  | [] => [o]
  | x :: xs => if x.id ≤ o.id then o :: x :: xs else x :: insertDescBy o xs

/-- `orders.sort((a, b) => b.id.localeCompare(a.id))`, modelled as an
insertion sort with the same comparator. -/
def sortByIdDesc (l : List Order) : List Order := l.foldr insertDescBy []

/-- `listOrders(connectionString)`: every row mapped back to an `Order`,
sorted by id descending. -/
def listOrders (t : OrdersTable) : List Order := sortByIdDesc (t.map rowToOrder)

/-- The `Math.random()` draws of `generateOrders`, abstracted: the
customer, amount, status and date picked for the `i`-th synthetic order. -/
structure SeedGen where
  customer : Nat → String
  amount : Nat → Rat
  status : Nat → OrderStatus
  date : Nat → String

/-- `generateOrders(count)`: rows `ORD-1 .. ORD-count` (ids zero-padded to
width 3), fields drawn from the generator. -/
def generateOrders (g : SeedGen) (count : Nat) : List OrderRow :=
  (List.range' 1 count).map (fun i =>
    { partitionKey := "Orders", rowKey := ordId i, id := ordId i,
      customer := g.customer i, amount := g.amount i,
      status := g.status i, date := g.date i })

/-- `new TableTransaction()` filled with one `createEntity` per row, then
`submitTransaction`: all-or-nothing — the first rejected create fails the
whole batch and nothing is committed. -/
def submitCreateTransaction (t : OrdersTable) : List OrderRow → Except StoreErr OrdersTable
  | [] => .ok t
  | r :: rest =>
    match createEntity noFaults t r with
    | .error e => .error e
    | .ok u => submitCreateTransaction u rest

/-- `seedIfEmpty(connectionString)`: ensures the table exists (elided: the
table is always represented here), probes `listEntities` for a first
record and returns if one exists, else batch-inserts `generateOrders(100)`
in one transaction. -/
def seedIfEmpty (g : SeedGen) (t : OrdersTable) : Except StoreErr OrdersTable :=
  match t with
  | [] => submitCreateTransaction [] (generateOrders g 100)
  | _ :: _ => .ok t

/-- Constant generator used by the witness. -/
def demoGen : SeedGen :=
  { customer := fun _ => "Contoso Ltd.", amount := fun _ => 100,
    status := fun _ => .Submitted, date := fun _ => "2026-02-24" }

/-- Payload used by the witnesses. -/
def demoData : OrderData :=
  { customer := "Fabrikam Inc.", amount := 42, status := .Submitted,
    date := "2026-02-24" }

/-- A store oracle that fails every write. -/
def allWritesFail : OrderRow → Bool := fun _ => true

/-- The replacement row `renameCustomer` writes for a collected order `o`:
all fields from `o` with `customer` set to the new name. -/
def renameRow (newName : String) (o : Order) : OrderRow :=
  { partitionKey := "Orders", rowKey := o.id, id := o.id,
    customer := newName, amount := o.amount, status := o.status, date := o.date }

/-- The effect of one `Replace` write of `renameCustomer` on one row. -/
def replRow (newName : String) (o : Order) (e : OrderRow) : OrderRow :=
  if e.partitionKey == "Orders" && e.rowKey == o.id then renameRow newName o else e

/-- The write loop of `renameCustomer`: one `updateEntity(..., "Replace")`
per collected order, sequentially; a failing write propagates. -/
def renameWrites (newName : String) : OrdersTable → List Order → Except StoreErr OrdersTable
  | t, [] => .ok t
  | t, o :: os =>
    match updateEntityReplace t (renameRow newName o) with
    | .error e => .error e
    | .ok t2 => renameWrites newName t2 os

/-- `renameCustomer(connectionString, oldName, newName)`: scans all
orders, collects those whose `customer` equals `oldName`, issues one
replace-write per match with `customer := newName`, and returns the
number of collected rows. -/
def renameCustomer (t : OrdersTable) (oldName newName : String) :
    Except StoreErr (OrdersTable × Nat) :=
  let toUpdate := (t.filter (fun e => e.customer == oldName)).map rowToOrder
  match renameWrites newName t toUpdate with
  | .error e => .error e
  | .ok t2 => .ok (t2, toUpdate.length)

/-- Witness table for the renaming claims: two customers. -/
def renameTable : OrdersTable :=
  [ { partitionKey := "Orders", rowKey := "ORD-001", id := "ORD-001",
      customer := "Contoso Ltd.", amount := 5, status := .Submitted,
      date := "2026-01-04" },
    { partitionKey := "Orders", rowKey := "ORD-002", id := "ORD-002",
      customer := "Fabrikam Inc.", amount := 7, status := .Pending,
      date := "2026-01-05" } ]

/-- `Number(x).toFixed(2)` on the exact rational amount: cents obtained by
rounding, rendered with two decimals.  (The binary-float rounding edge
cases of `toFixed` are not observable in any claim.) -/
def fixed2 (q : Rat) : String :=
  let cents : Int := (q * 100 + 1 / 2).floor
  let a := cents.natAbs
  (if cents < 0 then "-" else "") ++ toString (a / 100) ++ "." ++
    (if a % 100 < 10 then "0" else "") ++ toString (a % 100)

/-- An `ExecuteAction` of the adaptive-card library: title, verb, the
`orderId` payload, and a style. -/
structure ExecAction where
  title : String
  verb : String
  orderId : String
  style : String
deriving DecidableEq, Repr

/-- The card elements used by `botService.ts`: text blocks (with the
optional size / weight / color / isSubtle options that the code sets),
fact sets, and action sets. -/
inductive CardElement where
  | textBlock (text : String) (size : Option String) (weight : Option String)
      (color : Option String) (isSubtle : Option Bool)
  | factSet (facts : List (String × String))
  | actionSet (actions : List ExecAction)
deriving DecidableEq, Repr

/-- An `AdaptiveCard` document: schema, version, body. -/
structure AdaptiveCard where
  schema : String
  version : String
  body : List CardElement
deriving DecidableEq, Repr

/-- The TypeScript string value of an `OrderStatus`. -/
def statusText : OrderStatus → String
  | .Submitted => "Submitted"
  | .Pending => "Pending"
  | .Processing => "Processing"
  | .Shipped => "Shipped"
  | .Delivered => "Delivered"
  | .Cancelled => "Cancelled"

/-- The `STATUS_COLORS` record of `botService.ts`. -/
def statusColor : OrderStatus → String
  | .Submitted => "Accent"
  | .Pending => "Warning"
  | .Processing => "Accent"
  | .Shipped => "Good"
  | .Delivered => "Good"
  | .Cancelled => "Attention"

/-- `buildNewOrderCard(order)`: header, fact list, Accept/Cancel actions
carrying the order id. -/
def buildNewOrderCard (order : Order) : AdaptiveCard :=
  { schema := "http://adaptivecards.io/schemas/adaptive-card.json",
    version := "1.5",
    body := [
      .textBlock "📦 New Order Received" (some "Large") (some "Bolder")
        (some "Accent") none,
      .factSet [("Order ID", order.id), ("Customer", order.customer),
        ("Amount", "$" ++ fixed2 order.amount), ("Date", order.date),
        ("Status", statusText order.status)],
      .actionSet [
        { title := "✅ Accept", verb := "order.accept", orderId := order.id,
          style := "positive" },
        { title := "❌ Cancel", verb := "order.cancel", orderId := order.id,
          style := "destructive" }]] }

/-- `buildConfirmedCard(order, actedBy)`: status-dependent header, fact
list including who acted, and a closing note. -/
def buildConfirmedCard (order : Order) (actedBy : String) : AdaptiveCard :=
  let label :=
    if order.status = .Pending then "✅ Order Accepted"
    else if order.status = .Cancelled then "❌ Order Cancelled"
    else "📋 Order " ++ statusText order.status
  { schema := "http://adaptivecards.io/schemas/adaptive-card.json",
    version := "1.5",
    body := [
      .textBlock label (some "Large") (some "Bolder")
        (some (statusColor order.status)) none,
      .factSet [("Order ID", order.id), ("Customer", order.customer),
        ("Amount", "$" ++ fixed2 order.amount), ("Date", order.date),
        ("New Status", statusText order.status), ("Updated by", actedBy)],
      .textBlock "No further actions available." (some "Small") none none
        (some true)] }

/-- A JSON value that either is a string or is not (the only distinction
`typeof data?.orderId === "string"` makes). -/
inductive JsonScalar where
  | str (s : String)
  | nonString
deriving DecidableEq, Repr

/-- `typeof data?.orderId === "string" ? data.orderId : ""`. -/
def extractOrderId : Option JsonScalar → String
  | some (.str s) => s
  | _ => ""

/-- The value returned by the `card.action` handler: either an adaptive
card (with HTTP-like status code) or a structured error value. -/
inductive ActionResponse where
  | card (statusCode : Nat) (value : AdaptiveCard)
  | err (statusCode : Nat) (code : String) (message : String)
deriving DecidableEq, Repr

/-- `String(err)` for the store errors. -/
def errMessage : StoreErr → String
  | .entityAlreadyExists => "EntityAlreadyExists"
  | .resourceNotFound => "ResourceNotFound"
  | .writeFailed => "StoreWriteFailed"
  | .storeUnavailable => "StoreUnavailable"

/-- The `card.action` bot handler: rejects a missing/empty/non-string
`orderId` or an unknown verb with a 400-equivalent error value before
touching the store; otherwise updates the order's status
(`order.accept` to `Pending`, `order.cancel` to `Cancelled`) and answers
200 with the confirmation card (errors from the update yield a
500-equivalent error value, leaving the table as it was). -/
def cardActionHandler (t : OrdersTable) (verb : String)
    (orderIdVal : Option JsonScalar) (actedBy : String) :
    ActionResponse × OrdersTable :=
  let orderId := extractOrderId orderIdVal
  if orderId == "" || (verb != "order.accept" && verb != "order.cancel") then
    (.err 400 "BadRequest" "Unknown action", t)
  else
    let newStatus : OrderStatus := if verb == "order.accept" then .Pending else .Cancelled
    match updateOrder t orderId (statusPatch newStatus) with
    | .ok (t2, updated) => (.card 200 (buildConfirmedCard updated actedBy), t2)
    | .error e => (.err 500 "InternalError" (errMessage e), t)

/-- UTF-8 encoding of one unicode scalar value, byte by byte (arithmetic
form of the standard 1-to-4-byte layout). -/
def utf8EncodeNat (v : Nat) : List Nat :=
  if v < 128 then [v]
  else if v < 2048 then [192 + v / 64, 128 + v % 64]
  else if v < 65536 then [224 + v / 4096, 128 + v / 64 % 64, 128 + v % 64]
  else [240 + v / 262144, 128 + v / 4096 % 64, 128 + v / 64 % 64, 128 + v % 64]

/-- `Buffer.from(s)` on a character list: the UTF-8 bytes. -/
def listUtf8 (l : List Char) : List Nat :=
  (l.map (fun c => utf8EncodeNat c.toNat)).flatten

/-- `Buffer.from(conversationId)`: the UTF-8 bytes of the string. -/
def utf8Bytes (s : String) : List Nat := listUtf8 s.data

/-- A permissive UTF-8 decoder for one scalar: reads the length from the
first byte and reassembles the value (no validation — only used to invert
`utf8EncodeNat`). -/
def utf8DecodeOne : List Nat → Option (Nat × List Nat)
  | [] => none
  | b :: rest =>
    if b < 128 then some (b, rest)
    else if b < 224 then
      match rest with
      | b2 :: r => some ((b - 192) * 64 + (b2 - 128), r)
      | [] => none
    else if b < 240 then
      match rest with
      | b2 :: b3 :: r => some ((b - 224) * 4096 + (b2 - 128) * 64 + (b3 - 128), r)
      | _ => none
    else
      match rest with
      | b2 :: b3 :: b4 :: r =>
          some ((b - 240) * 262144 + (b2 - 128) * 4096 + (b3 - 128) * 64 + (b4 - 128), r)
      | _ => none

/-- The base64 alphabet. -/
def base64Alphabet : List Char :=
  "ABCDEFGHIJKLMNOPQRSTUVWXYZabcdefghijklmnopqrstuvwxyz0123456789+/".data

/-- The base64 digit for a 6-bit value. -/
def b64c (n : Nat) : Char := base64Alphabet.getD n 'A'

/-- The 6-bit value of a base64 digit. -/
def b64d (c : Char) : Nat := base64Alphabet.indexOf c

/-- `buffer.toString("base64")`: standard base64 with `=` padding,
processing three bytes into four digits. -/
def base64Encode : List Nat → List Char
  | [] => []
  | [b1] => [b64c (b1 / 4), b64c (b1 % 4 * 16), '=', '=']
  | [b1, b2] => [b64c (b1 / 4), b64c (b1 % 4 * 16 + b2 / 16), b64c (b2 % 16 * 4), '=']
  | b1 :: b2 :: b3 :: rest =>
      b64c (b1 / 4) :: b64c (b1 % 4 * 16 + b2 / 16) ::
      b64c (b2 % 16 * 4 + b3 / 64) :: b64c (b3 % 64) :: base64Encode rest

/-- Base64 decoding by four-digit chunks (only used to invert
`base64Encode`). -/
def base64Decode : List Char → Option (List Nat)
  | [] => some []
  | c1 :: c2 :: c3 :: c4 :: rest =>
    if c4 = '=' then
      if c3 = '=' then some [b64d c1 * 4 + b64d c2 / 16]
      else some [b64d c1 * 4 + b64d c2 / 16, b64d c2 % 16 * 16 + b64d c3 / 4]
    else
      match base64Decode rest with
      | some bs => some ((b64d c1 * 4 + b64d c2 / 16) ::
          (b64d c2 % 16 * 16 + b64d c3 / 4) ::
          (b64d c3 % 4 * 64 + b64d c4) :: bs)
      | none => none
  | _ => none

/-- `.replace(/[/+=]/g, "_")` on one character. -/
def replaceSpecial (c : Char) : Char :=
  if c = '/' ∨ c = '+' ∨ c = '=' then '_' else c

/-- The row key `saveConversation` / `removeConversation` compute:
`Buffer.from(conversationId).toString("base64").replace(/[/+=]/g, "_")`. -/
def toRowKey (conversationId : String) : String :=
  String.mk ((base64Encode (utf8Bytes conversationId)).map replaceSpecial)

/-- A row of the `BotSubscriptions` table. -/
structure SubRow where
  partitionKey : String
  rowKey : String
  conversationId : String
  serviceUrl : String
deriving DecidableEq, Repr

/-- The `BotSubscriptions` table, in scan order. -/
abbrev SubsTable := List SubRow

/-- `upsertEntity({...}, "Replace")`: replaces the keyed row if present,
otherwise appends it. -/
def saveConversation (t : SubsTable) (conversationId serviceUrl : String) : SubsTable :=
  let rk := toRowKey conversationId
  let row : SubRow :=
    { partitionKey := "BotSub", rowKey := rk,
      conversationId := conversationId, serviceUrl := serviceUrl }
  if t.any (fun e => e.partitionKey == "BotSub" && e.rowKey == rk) then
    t.map (fun e => if e.partitionKey == "BotSub" && e.rowKey == rk then row else e)
  else t ++ [row]

/-- `deleteEntity(SUB_PARTITION, rowKey)`: rejects when the fault oracle
fires (store unavailable) or when the row is absent; otherwise removes the
keyed row. -/
def deleteEntitySub (faulty : Bool) (t : SubsTable) (pk rk : String) :
    Except StoreErr SubsTable :=
  if faulty then .error .storeUnavailable
  else if t.any (fun e => e.partitionKey == pk && e.rowKey == rk) then
    .ok (t.filter (fun e => !(e.partitionKey == pk && e.rowKey == rk)))
  else .error .resourceNotFound

/-- `removeConversation(connectionString, conversationId)`: the delete
with `.catch(() => { /* already gone */ })` — every rejection of the
underlying delete is swallowed and the call resolves. -/
def removeConversation (faulty : Bool) (t : SubsTable) (conversationId : String) : SubsTable :=
  match deleteEntitySub faulty t "BotSub" (toRowKey conversationId) with
  | .ok t2 => t2
  | .error _ => t

/-- `listConversations(connectionString)`: every stored conversation id
whose value is truthy (non-empty). -/
def listConversations (t : SubsTable) : List String :=
  (t.filter (fun e => e.conversationId != "")).map (fun e => e.conversationId)

/-- Subscription table used by the witness. -/
def demoSubs : SubsTable :=
  [ { partitionKey := "BotSub", rowKey := toRowKey "conv-A",
      conversationId := "conv-A", serviceUrl := "https://smba.example" } ]

theorem natDigits_ne_nil (n : Nat) : natDigits n ≠ [] := by
  rw [natDigits]
  split
  · simp
  · simp

theorem digitChar_isDigit : ∀ d, d < 10 → isDigitChar (digitChar d) = true := by
  decide

theorem digitChar_toNat : ∀ d, d < 10 → (digitChar d).toNat - 48 = d := by
  decide

theorem natDigits_all_digits (n : Nat) : (natDigits n).all isDigitChar = true := by
  induction n using Nat.strong_induction_on with
  | _ n ih =>
    rw [natDigits]
    split
    · next h =>
      simp [digitChar_isDigit n h]
    · next h =>
      rw [List.all_append, Bool.and_eq_true]
      refine And.intro ?_ ?_
      · exact ih (n / 10) (Nat.div_lt_self (by omega) (by omega))
      · simp [digitChar_isDigit (n % 10) (Nat.mod_lt n (by omega))]

theorem parseDigits_append_one (xs : List Char) (c : Char) :
    parseDigits (xs ++ [c]) = parseDigits xs * 10 + (c.toNat - 48) := by
  unfold parseDigits
  rw [List.foldl_append]
  rfl

theorem parseDigits_natDigits (n : Nat) : parseDigits (natDigits n) = n := by
  induction n using Nat.strong_induction_on with
  | _ n ih =>
    rw [natDigits]
    split
    · next h =>
      show parseDigits [digitChar n] = n
      unfold parseDigits
      simp [digitChar_toNat n h]
    · next h =>
      rw [parseDigits_append_one]
      rw [ih (n / 10) (Nat.div_lt_self (by omega) (by omega))]
      rw [digitChar_toNat (n % 10) (Nat.mod_lt n (by omega))]
      omega

theorem parseDigits_leading_zeros (k : Nat) (xs : List Char) :
    parseDigits (List.replicate k '0' ++ xs) = parseDigits xs := by
  induction k with
  | zero => rfl
  | succ k ih =>
    rw [List.replicate_succ, List.cons_append]
    show parseDigits ('0' :: (List.replicate k '0' ++ xs)) = parseDigits xs
    unfold parseDigits at *
    simpa using ih

/-- Round trip: the id written by `createOrder` is matched back by its own
row-key scan, recovering the numeric suffix. -/
theorem parseOrdSuffix_ordId (n : Nat) : parseOrdSuffix (ordId n) = some n := by
  show parseOrdSuffix (String.mk (ordIdChars n)) = some n
  unfold parseOrdSuffix ordIdChars padTo3
  simp only
  have hne : (List.replicate (3 - (natDigits n).length) '0' ++ natDigits n).isEmpty = false := by
    rcases h : natDigits n with _ | ⟨c, cs⟩
    · exact absurd h (natDigits_ne_nil n)
    · simp [List.isEmpty_iff]
  rw [hne]
  simp only [Bool.false_eq_true, if_false]
  have hall : (List.replicate (3 - (natDigits n).length) '0' ++ natDigits n).all isDigitChar = true := by
    rw [List.all_append, Bool.and_eq_true]
    refine And.intro ?_ (natDigits_all_digits n)
    rw [List.all_eq_true]
    intro c hc
    rw [List.eq_of_mem_replicate hc]
    decide
  rw [hall]
  simp only [if_true]
  rw [parseDigits_leading_zeros, parseDigits_natDigits]

theorem ordId_injective : Function.Injective ordId := by
  intro m n h
  have hm := parseOrdSuffix_ordId m
  have hn := parseOrdSuffix_ordId n
  rw [h, hn] at hm
  exact (Option.some_inj.mp hm).symm

theorem maxOrdNum_keyed (t : OrdersTable) (l : List Nat)
    (h : t.map (fun e => e.rowKey) = l.map ordId) :
    maxOrdNum t = l.foldl Nat.max 0 := by
  unfold maxOrdNum
  suffices hgen : ∀ (t : OrdersTable) (l : List Nat) (a : Nat),
      t.map (fun e => e.rowKey) = l.map ordId →
      t.foldl (fun m e =>
        match parseOrdSuffix e.rowKey with
        | some n => Nat.max m n
        | none => m) a = l.foldl Nat.max a by
    exact hgen t l 0 h
  intro t
  induction t with
  | nil =>
    intro l a h
    rcases l with _ | ⟨n, l'⟩
    · rfl
    · simp at h
  | cons e t' ih =>
    intro l a h
    rcases l with _ | ⟨n, l'⟩
    · simp at h
    · simp only [List.map_cons, List.cons.injEq] at h
      simp only [List.foldl_cons, h.1, parseOrdSuffix_ordId]
      exact ih l' (Nat.max a n) h.2

theorem foldl_max_range' (N : Nat) : ∀ a, (List.range' 1 N).foldl Nat.max a = Nat.max a N := by
  induction N with
  | zero => intro a; simp
  | succ n ih =>
    intro a
    rw [List.range'_concat 1 n, List.foldl_append, ih a]
    simp only [List.foldl_cons, List.foldl_nil]
    have h1 : 1 + 1 * n = n + 1 := by omega
    rw [h1]
    simp only [Nat.max_def]
    split_ifs <;> omega

theorem serialCreates_keys (datas : Nat → OrderData) (N : Nat) :
    ∃ t, serialCreates datas N = .ok t ∧
      t.map (fun e => e.rowKey) = (List.range' 1 N).map ordId ∧
      t.map (fun e => OrderRow.id e) = (List.range' 1 N).map ordId ∧
      (∀ e ∈ t, e.partitionKey = "Orders") := by
  induction N with
  | zero => exact ⟨[], rfl, rfl, rfl, by intro e h; simp at h⟩
  | succ n ih =>
    obtain ⟨t, hok, hkeys, hids, hpart⟩ := ih
    have hmax : maxOrdNum t = n := by
      rw [maxOrdNum_keyed t (List.range' 1 n) hkeys, foldl_max_range' n 0]
      simp
    have hnodup : (t.any (fun e =>
        e.partitionKey == (newOrderRow t (datas n)).partitionKey &&
        e.rowKey == (newOrderRow t (datas n)).rowKey)) = false := by
      rw [List.any_eq_false]
      intro e he
      have hkey : e.rowKey ∈ (List.range' 1 n).map ordId := by
        rw [← hkeys]; exact List.mem_map_of_mem _ he
      obtain ⟨i, hi, hie⟩ := List.mem_map.mp hkey
      have hrange := (List.mem_range'_1).mp hi
      intro hcontra
      rw [Bool.and_eq_true, beq_iff_eq, beq_iff_eq] at hcontra
      have : e.rowKey = ordId (maxOrdNum t + 1) := hcontra.2
      rw [← hie, hmax] at this
      have := ordId_injective this
      omega
    refine ⟨t ++ [newOrderRow t (datas n)], ?_, ?_, ?_, ?_⟩
    · show serialCreates datas (n + 1) = _
      unfold serialCreates
      rw [hok]
      simp only [createOrder, createEntity, noFaults, hnodup]
      rfl
    · rw [List.map_append, hkeys, List.range'_concat 1 n, List.map_append]
      simp [newOrderRow, hmax]
      congr 1
      omega
    · rw [List.map_append, hids, List.range'_concat 1 n, List.map_append]
      simp [newOrderRow, hmax]
      congr 1
      omega
    · intro e he
      rcases List.mem_append.mp he with h | h
      · exact hpart e h
      · rw [List.mem_singleton.mp h]; rfl

/-- Claim C1: starting from an empty store, `N` serialized `createOrder`
calls all succeed and the resulting ids are exactly
`ORD-001 .. ORD-00N` (suffixes `1..N` zero-padded to width 3, `ordId`),
with no gaps and no duplicates.  Each call assigns, by the definition of
`createOrder` via `newOrderRow`, the id `ordId (maxOrdNum t + 1)`, i.e.
one plus the maximal numeric suffix among row keys matching
`/^ORD-(\d+)$/`. -/
theorem serial_createOrder_ids_exact (datas : Nat → OrderData) (N : Nat) :
    ∃ t, serialCreates datas N = .ok t ∧
      t.map (fun e => e.rowKey) = (List.range' 1 N).map ordId ∧
      (∀ s, s ∈ t.map (fun e => OrderRow.id e) ↔ ∃ i, 1 ≤ i ∧ i ≤ N ∧ s = ordId i) ∧
      (t.map (fun e => OrderRow.id e)).Nodup := by
  obtain ⟨t, hok, hkeys, hids, _⟩ := serialCreates_keys datas N
  refine ⟨t, hok, hkeys, ?_, ?_⟩
  · intro s
    rw [hids, List.mem_map]
    constructor
    · rintro ⟨i, hi, rfl⟩
      have := List.mem_range'_1.mp hi
      exact ⟨i, by omega, by omega, rfl⟩
    · rintro ⟨i, h1, h2, rfl⟩
      exact ⟨i, List.mem_range'_1.mpr ⟨h1, by omega⟩, rfl⟩
  · rw [hids]
    exact List.Nodup.map ordId_injective (List.nodup_range' 1 N)

theorem rows_eq_of_same_key {t : OrdersTable} (hnd : (t.map (fun e => e.rowKey)).Nodup)
    {e1 e2 : OrderRow} (h1 : e1 ∈ t) (h2 : e2 ∈ t) (h : e1.rowKey = e2.rowKey) :
    e1 = e2 :=
  List.inj_on_of_nodup_map hnd h1 h2 h

theorem getEntity_mem {t : OrdersTable} {pk rk : String} {r : OrderRow}
    (h : getEntity t pk rk = some r) :
    r ∈ t ∧ r.partitionKey = pk ∧ r.rowKey = rk := by
  have hmem := List.mem_of_find?_eq_some h
  have hpred := List.find?_some h
  rw [Bool.and_eq_true, beq_iff_eq, beq_iff_eq] at hpred
  exact ⟨hmem, hpred.1, hpred.2⟩

theorem updateOrder_of_found {t : OrdersTable} {id : String} {r : OrderRow}
    (patch : OrderPatch) (hfind : getEntity t "Orders" id = some r) :
    updateOrder t id patch =
      .ok (t.map (fun e =>
          if e.partitionKey == "Orders" && e.rowKey == id then mergeRow id r patch else e),
        mergedOrder id r patch) := by
  obtain ⟨hmem, hpk, hrk⟩ := getEntity_mem hfind
  have hany : (t.any (fun e =>
      e.partitionKey == "Orders" && e.rowKey == id)) = true := by
    rw [List.any_eq_true]
    refine ⟨r, hmem, ?_⟩
    rw [Bool.and_eq_true, beq_iff_eq, beq_iff_eq]
    exact ⟨hpk, hrk⟩
  unfold updateOrder
  rw [hfind]
  unfold updateEntityReplace
  simp only [mergeRow]
  rw [hany]
  rfl

/-- Claim C2: for an order id present in the store, `updateOrder(id,
{status: S})` changes only the status: the returned order keeps the stored
customer, amount and date; the stored row keyed by `id` keeps its
customer, amount and date with status set to `S`; and every other row of
the table is untouched. -/
theorem updateOrder_status_only (t : OrdersTable) (id : String) (r : OrderRow)
    (S : OrderStatus) (hwf : WFOrders t) (hfind : getEntity t "Orders" id = some r) :
    ∃ t' o, updateOrder t id (statusPatch S) = .ok (t', o) ∧
      o.customer = r.customer ∧ o.amount = r.amount ∧ o.date = r.date ∧
      o.status = S ∧ o.id = id ∧
      (∀ e ∈ t, e.rowKey ≠ id → e ∈ t') ∧
      (∀ e' ∈ t', e'.rowKey ≠ id → e' ∈ t) ∧
      (∀ e' ∈ t', e'.rowKey = id →
        e'.customer = r.customer ∧ e'.amount = r.amount ∧ e'.date = r.date ∧
        e'.status = S) := by
  obtain ⟨hmem, hpk, hrk⟩ := getEntity_mem hfind
  refine ⟨_, _, updateOrder_of_found (statusPatch S) hfind, rfl, rfl, rfl, rfl, rfl,
    ?_, ?_, ?_⟩
  · intro e he hne
    rw [List.mem_map]
    refine ⟨e, he, ?_⟩
    have hc : (e.partitionKey == "Orders" && e.rowKey == id) = false := by
      rw [Bool.and_eq_false_iff]
      right
      exact beq_false_of_ne hne
    simp [hc]
  · intro e' he' hne
    obtain ⟨e, he, hmap⟩ := List.mem_map.mp he'
    by_cases hcond : (e.partitionKey == "Orders" && e.rowKey == id) = true
    · rw [hcond] at hmap
      simp only [if_pos rfl] at hmap
      exact absurd (by rw [← hmap]; rfl) hne
    · rw [Bool.not_eq_true] at hcond
      rw [hcond] at hmap
      simp only [Bool.false_eq_true, if_false] at hmap
      rw [← hmap]
      exact he
  · intro e' he' heq
    obtain ⟨e, he, hmap⟩ := List.mem_map.mp he'
    by_cases hcond : (e.partitionKey == "Orders" && e.rowKey == id) = true
    · rw [hcond] at hmap
      simp only [if_pos rfl] at hmap
      rw [← hmap]
      exact ⟨rfl, rfl, rfl, rfl⟩
    · rw [Bool.not_eq_true] at hcond
      rw [hcond] at hmap
      simp only [Bool.false_eq_true, if_false] at hmap
      exfalso
      rw [Bool.and_eq_false_iff] at hcond
      rcases hcond with hcond | hcond
      · exact absurd (beq_iff_eq.mpr (hwf.1 e he).1) (by rw [hcond]; simp)
      · rw [← hmap] at heq
        exact absurd (beq_iff_eq.mpr heq) (by rw [hcond]; simp)

theorem updateOrder_status_only_witness :
    WFOrders demoTable ∧ getEntity demoTable "Orders" "ORD-001" = some demoRow ∧
    (∃ t' o, updateOrder demoTable "ORD-001" (statusPatch .Shipped) = .ok (t', o) ∧
      o.customer = demoRow.customer ∧ o.amount = demoRow.amount ∧
      o.date = demoRow.date ∧ o.status = .Shipped ∧ o.id = "ORD-001" ∧
      (∀ e ∈ demoTable, e.rowKey ≠ "ORD-001" → e ∈ t') ∧
      (∀ e' ∈ t', e'.rowKey ≠ "ORD-001" → e' ∈ demoTable) ∧
      (∀ e' ∈ t', e'.rowKey = "ORD-001" →
        e'.customer = demoRow.customer ∧ e'.amount = demoRow.amount ∧
        e'.date = demoRow.date ∧ e'.status = .Shipped)) :=
  ⟨by decide, by decide,
    updateOrder_status_only demoTable "ORD-001" demoRow .Shipped (by decide) (by decide)⟩

/-- Claim C3: `updateOrder(id, {})` with the empty patch returns a record
whose `id`, `customer`, `amount`, `status` and `date` are exactly the
stored record's values, and leaves the table unchanged. -/
theorem updateOrder_empty_patch_id (t : OrdersTable) (oid : String) (r : OrderRow)
    (hwf : WFOrders t) (hfind : getEntity t "Orders" oid = some r) :
    ∃ o, updateOrder t oid emptyPatch = .ok (t, o) ∧
      o.id = r.id ∧ o.customer = r.customer ∧ o.amount = r.amount ∧
      o.status = r.status ∧ o.date = r.date := by
  obtain ⟨hmem, hpk, hrk⟩ := getEntity_mem hfind
  have hid : r.id = oid := by rw [(hwf.1 r hmem).2, hrk]
  have hrow : mergeRow oid r emptyPatch = r := by
    cases r
    simp only at hpk hrk hid
    subst hpk hrk hid
    rfl
  have hcong : ∀ e ∈ t, (if e.partitionKey == "Orders" && e.rowKey == oid
      then r else e) = id e := by
    intro e he
    by_cases hcond : (e.partitionKey == "Orders" && e.rowKey == oid) = true
    · rw [if_pos hcond]
      show r = e
      rw [Bool.and_eq_true, beq_iff_eq, beq_iff_eq] at hcond
      exact rows_eq_of_same_key hwf.2 hmem he (by rw [hrk, hcond.2])
    · rw [Bool.not_eq_true] at hcond
      rw [hcond]
      simp
  have hmap : (t.map (fun e =>
      if e.partitionKey == "Orders" && e.rowKey == oid then r else e)) = t := by
    rw [List.map_congr_left hcong, List.map_id]
  refine ⟨mergedOrder oid r emptyPatch, ?_, ?_, rfl, rfl, rfl, rfl⟩
  · rw [updateOrder_of_found emptyPatch hfind, hrow, hmap]
  · show oid = r.id
    exact hid.symm

theorem updateOrder_empty_patch_id_witness :
    WFOrders demoTable ∧ getEntity demoTable "Orders" "ORD-001" = some demoRow ∧
    (∃ o, updateOrder demoTable "ORD-001" emptyPatch = .ok (demoTable, o) ∧
      o.id = demoRow.id ∧ o.customer = demoRow.customer ∧
      o.amount = demoRow.amount ∧ o.status = demoRow.status ∧
      o.date = demoRow.date) :=
  ⟨by decide, by decide,
    updateOrder_empty_patch_id demoTable "ORD-001" demoRow (by decide) (by decide)⟩

theorem chain_insertDescBy (o : Order) (l : List Order)
    (h : List.Chain' (fun a b => b.id ≤ a.id) l) :
    List.Chain' (fun a b => b.id ≤ a.id) (insertDescBy o l) := by
  induction l with
  | nil => simp [insertDescBy]
  | cons x xs ih =>
    unfold insertDescBy
    by_cases hle : x.id ≤ o.id
    · rw [if_pos hle]
      exact List.Chain'.cons hle h
    · rw [if_neg hle]
      have hxs := h.tail
      have hins := ih hxs
      rcases hxs2 : insertDescBy o xs with _ | ⟨y, ys⟩
      · simp
      · rw [hxs2] at hins
        refine List.Chain'.cons ?_ hins
        have hyle : y.id ≤ x.id := by
          rcases xs with _ | ⟨z, zs⟩
          · simp [insertDescBy] at hxs2
            rw [← hxs2.1]
            exact le_of_not_le hle
          · unfold insertDescBy at hxs2
            by_cases hz : z.id ≤ o.id
            · rw [if_pos hz] at hxs2
              injection hxs2 with h1 _
              rw [← h1]
              exact le_of_not_le hle
            · rw [if_neg hz] at hxs2
              injection hxs2 with h1 _
              rw [← h1]
              exact (List.chain'_cons.mp h).1
        exact hyle

/-- Claim C5: `listOrders` output is sorted by id descending — every
adjacent pair satisfies `next.id ≤ earlier.id` (lexicographically). -/
theorem listOrders_sorted_desc (t : OrdersTable) :
    List.Chain' (fun a b => b.id ≤ a.id) (listOrders t) := by
  unfold listOrders sortByIdDesc
  generalize t.map rowToOrder = l
  induction l with
  | nil => simp
  | cons x xs ih =>
    rw [List.foldr_cons]
    exact chain_insertDescBy x _ ih

theorem submitCreateTransaction_ok (rows : List OrderRow) :
    ∀ t : OrdersTable,
    (∀ r ∈ rows, ∀ e ∈ t, ¬(e.partitionKey = r.partitionKey ∧ e.rowKey = r.rowKey)) →
    (rows.map (fun r => (r.partitionKey, r.rowKey))).Nodup →
    submitCreateTransaction t rows = .ok (t ++ rows) := by
  induction rows with
  | nil =>
    intro t _ _
    simp [submitCreateTransaction]
  | cons r rest ih =>
    intro t h1 h2
    have hany : (t.any (fun e =>
        e.partitionKey == r.partitionKey && e.rowKey == r.rowKey)) = false := by
      rw [List.any_eq_false]
      intro e he
      intro hc
      rw [Bool.and_eq_true, beq_iff_eq, beq_iff_eq] at hc
      exact h1 r (List.mem_cons_self r rest) e he hc
    have hcreate : createEntity noFaults t r = .ok (t ++ [r]) := by
      unfold createEntity noFaults
      rw [if_neg (by simp)]
      rw [hany]
      simp
    have hstep : submitCreateTransaction t (r :: rest) =
        submitCreateTransaction (t ++ [r]) rest := by
      show (match createEntity noFaults t r with
        | Except.error e => Except.error e
        | Except.ok u => submitCreateTransaction u rest) =
        submitCreateTransaction (t ++ [r]) rest
      rw [hcreate]
    rw [hstep]
    rw [ih (t ++ [r]) ?_ (List.Nodup.of_cons h2)]
    · rw [List.append_assoc]
      rfl
    · intro r' hr' e he
      rcases List.mem_append.mp he with he | he
      · exact h1 r' (List.mem_cons_of_mem r hr') e he
      · rw [List.mem_singleton.mp he]
        intro hc
        have hmm : (r.partitionKey, r.rowKey) ∈ rest.map (fun x => (x.partitionKey, x.rowKey)) := by
          rw [List.mem_map]
          exact ⟨r', hr', by rw [hc.1, hc.2]⟩
        rw [List.map_cons, List.nodup_cons] at h2
        exact h2.1 hmm

theorem generateOrders_keypairs (g : SeedGen) (count : Nat) :
    ((generateOrders g count).map (fun r => (r.partitionKey, r.rowKey))).Nodup := by
  unfold generateOrders
  rw [List.map_map]
  refine List.Nodup.map ?_ (List.nodup_range' 1 count)
  intro a b hab
  simp only [Function.comp_apply, Prod.mk.injEq] at hab
  exact ordId_injective hab.2

/-- Claim C6: on a non-empty store `seedIfEmpty` performs no write; on the
empty store it succeeds inserting exactly 100 rows in one transaction, and
a second call on the seeded store is a no-op leaving the count at 100. -/
theorem seedIfEmpty_hundred_idempotent (g g' : SeedGen) (u : OrdersTable)
    (hu : u ≠ []) :
    seedIfEmpty g' u = .ok u ∧
    ∃ t, seedIfEmpty g [] = .ok t ∧ t.length = 100 ∧ seedIfEmpty g' t = .ok t := by
  have hnoop : ∀ v : OrdersTable, v ≠ [] → seedIfEmpty g' v = .ok v := by
    intro v hv
    rcases v with _ | ⟨x, xs⟩
    · exact absurd rfl hv
    · rfl
  refine ⟨hnoop u hu, generateOrders g 100, ?_, ?_, ?_⟩
  · show submitCreateTransaction [] (generateOrders g 100) = _
    have hok := submitCreateTransaction_ok (generateOrders g 100) []
      (by intro r _ e he; simp at he) (generateOrders_keypairs g 100)
    rw [hok]
    rfl
  · unfold generateOrders
    rw [List.length_map, List.length_range']
  · refine hnoop _ ?_
    intro hnil
    have : (generateOrders g 100).length = 0 := by rw [hnil]; rfl
    rw [show (generateOrders g 100).length = 100 from by
      unfold generateOrders; rw [List.length_map, List.length_range']] at this
    omega

theorem seedIfEmpty_hundred_idempotent_witness :
    demoTable ≠ [] ∧
    (seedIfEmpty demoGen demoTable = .ok demoTable ∧
      ∃ t, seedIfEmpty demoGen [] = .ok t ∧ t.length = 100 ∧
        seedIfEmpty demoGen t = .ok t) :=
  ⟨by decide, seedIfEmpty_hundred_idempotent demoGen demoGen demoTable (by decide)⟩

/-- Claim C7: if the `createEntity` insert inside `createOrder` fails, the
error propagates to the caller and the notification callback (the SSE +
card broadcast `broadcastNewOrder` that the `POST /api/orders` handler
passes as `notify`) is never invoked — the notification log is empty.
The callback fires, exactly once and with the created order, only when the
insert has succeeded. -/
theorem createOrder_error_no_notify (faulty : OrderRow → Bool) (t : OrdersTable)
    (data : OrderData) :
    (∀ e, createEntity faulty t (newOrderRow t data) = .error e →
      createOrder faulty t data = (.error e, [])) ∧
    (∀ t2, createEntity faulty t (newOrderRow t data) = .ok t2 →
      createOrder faulty t data = (.ok (t2, newOrderOf t data), [newOrderOf t data])) := by
  constructor
  · intro e he
    unfold createOrder
    rw [he]
  · intro t2 ht
    unfold createOrder
    rw [ht]

theorem createOrder_error_no_notify_witness :
    createEntity allWritesFail demoTable (newOrderRow demoTable demoData) =
      .error .writeFailed ∧
    createOrder allWritesFail demoTable demoData = (.error .writeFailed, []) :=
  ⟨rfl,
    (createOrder_error_no_notify allWritesFail demoTable demoData).1 .writeFailed rfl⟩

theorem replRow_keys (newName : String) (o : Order) (e : OrderRow) :
    (replRow newName o e).partitionKey = e.partitionKey ∧
    (replRow newName o e).rowKey = e.rowKey := by
  unfold replRow
  by_cases hcond : (e.partitionKey == "Orders" && e.rowKey == o.id) = true
  · rw [if_pos hcond]
    rw [Bool.and_eq_true, beq_iff_eq, beq_iff_eq] at hcond
    exact ⟨hcond.1.symm, hcond.2.symm⟩
  · rw [Bool.not_eq_true] at hcond
    rw [hcond]
    simp

theorem any_map_replRow (newName : String) (o : Order) (t : OrdersTable)
    (pk rk : String) :
    ((t.map (replRow newName o)).any (fun e => e.partitionKey == pk && e.rowKey == rk)) =
    (t.any (fun e => e.partitionKey == pk && e.rowKey == rk)) := by
  induction t with
  | nil => rfl
  | cons e t' ih =>
    rw [List.map_cons, List.any_cons, List.any_cons, ih]
    obtain ⟨h1, h2⟩ := replRow_keys newName o e
    rw [h1, h2]

theorem updateEntityReplace_renameRow (newName : String) (o : Order) (t : OrdersTable)
    (hany : (t.any (fun e => e.partitionKey == "Orders" && e.rowKey == o.id)) = true) :
    updateEntityReplace t (renameRow newName o) = .ok (t.map (replRow newName o)) := by
  unfold updateEntityReplace replRow
  simp only [renameRow]
  rw [hany]
  rfl

theorem renameWrites_eq_map (newName : String) (os : List Order) :
    ∀ t : OrdersTable,
    (∀ o ∈ os, (t.any (fun e => e.partitionKey == "Orders" && e.rowKey == o.id)) = true) →
    renameWrites newName t os =
      .ok (t.map (fun e => os.foldl (fun x o => replRow newName o x) e)) := by
  induction os with
  | nil =>
    intro t _
    show Except.ok t = _
    simp
  | cons o os' ih =>
    intro t hpres
    have hstep := updateEntityReplace_renameRow newName o t (hpres o (List.mem_cons_self o os'))
    have hred : renameWrites newName t (o :: os') =
        renameWrites newName (t.map (replRow newName o)) os' := by
      show (match updateEntityReplace t (renameRow newName o) with
        | Except.error e => Except.error e
        | Except.ok t2 => renameWrites newName t2 os') =
        renameWrites newName (t.map (replRow newName o)) os'
      rw [hstep]
    rw [hred, ih (t.map (replRow newName o)) ?_]
    · rw [List.map_map]
      rfl
    · intro o' ho'
      rw [any_map_replRow]
      exact hpres o' (List.mem_cons_of_mem o ho')

theorem foldl_replRow_stable (nn : String) (os : List Order) :
    ∀ e : OrderRow, e.customer = nn →
      (os.foldl (fun x o => replRow nn o x) e).customer = nn := by
  induction os with
  | nil => intro e he; exact he
  | cons o os' ih =>
    intro e he
    rw [List.foldl_cons]
    refine ih _ ?_
    unfold replRow
    by_cases hcond : (e.partitionKey == "Orders" && e.rowKey == o.id) = true
    · rw [if_pos hcond]
      rfl
    · rw [Bool.not_eq_true] at hcond
      rw [hcond]
      simpa using he

theorem foldl_replRow_matched (nn : String) (os : List Order) (o : Order) :
    o ∈ os → ∀ e : OrderRow, e.partitionKey = "Orders" → e.rowKey = o.id →
      (os.foldl (fun x o => replRow nn o x) e).customer = nn := by
  induction os with
  | nil => intro ho; simp at ho
  | cons o' os' ih =>
    intro ho e hpk hrk
    rw [List.foldl_cons]
    by_cases hcond : (e.partitionKey == "Orders" && e.rowKey == o'.id) = true
    · refine foldl_replRow_stable nn os' _ ?_
      unfold replRow
      rw [if_pos hcond]
      rfl
    · have hrepl : replRow nn o' e = e := by
        unfold replRow
        rw [Bool.not_eq_true] at hcond
        rw [hcond]
        simp
      rcases List.mem_cons.mp ho with rfl | ho'
      · exfalso
        apply hcond
        rw [Bool.and_eq_true, beq_iff_eq, beq_iff_eq]
        exact ⟨hpk, hrk⟩
      · rw [hrepl]
        exact ih ho' e hpk hrk

theorem foldl_replRow_cases (nn : String) (os : List Order) :
    ∀ e : OrderRow, (os.foldl (fun x o => replRow nn o x) e).customer = e.customer ∨
      (os.foldl (fun x o => replRow nn o x) e).customer = nn := by
  induction os with
  | nil => intro e; exact Or.inl rfl
  | cons o os' ih =>
    intro e
    rw [List.foldl_cons]
    by_cases hcond : (e.partitionKey == "Orders" && e.rowKey == o.id) = true
    · right
      refine foldl_replRow_stable nn os' _ ?_
      unfold replRow
      rw [if_pos hcond]
      rfl
    · have hrepl : replRow nn o e = e := by
        unfold replRow
        rw [Bool.not_eq_true] at hcond
        rw [hcond]
        simp
      rw [hrepl]
      exact ih e

/-- Claim C4, amended: `renameCustomer(old, new)` returns a count equal to
the number of orders whose `customer` equals `old` before the call, and —
provided `old ≠ new` — afterwards zero orders have `customer` equal to
`old`.  (As literally stated the claim fails when `old = new`; see the
counterexample.) -/
theorem renameCustomer_count_clears (t : OrdersTable) (oldName newName : String)
    (hwf : WFOrders t) :
    ∃ t', renameCustomer t oldName newName =
        .ok (t', t.countP (fun e => e.customer == oldName)) ∧
      (oldName ≠ newName → t'.countP (fun e => e.customer == oldName) = 0) := by
  have hpres : ∀ o ∈ (t.filter (fun e => e.customer == oldName)).map rowToOrder,
      (t.any (fun e => e.partitionKey == "Orders" && e.rowKey == o.id)) = true := by
    intro o ho
    obtain ⟨e0, he0, rfl⟩ := List.mem_map.mp ho
    have he0t : e0 ∈ t := List.mem_of_mem_filter he0
    rw [List.any_eq_true]
    refine ⟨e0, he0t, ?_⟩
    rw [Bool.and_eq_true, beq_iff_eq, beq_iff_eq]
    exact ⟨(hwf.1 e0 he0t).1, rfl⟩
  have hw := renameWrites_eq_map newName
    ((t.filter (fun e => e.customer == oldName)).map rowToOrder) t hpres
  have hlen : ((t.filter (fun e => e.customer == oldName)).map rowToOrder).length =
      t.countP (fun e => e.customer == oldName) := by
    rw [List.length_map]
    exact (List.countP_eq_length_filter _ _).symm
  refine ⟨t.map (fun e : OrderRow =>
      ((t.filter (fun e : OrderRow => e.customer == oldName)).map rowToOrder).foldl
        (fun x o => replRow newName o x) e), ?_, ?_⟩
  · show (match renameWrites newName t
        ((t.filter (fun e : OrderRow => e.customer == oldName)).map rowToOrder) with
      | Except.error e => Except.error e
      | Except.ok t2 =>
          Except.ok (t2,
            ((t.filter (fun e : OrderRow => e.customer == oldName)).map rowToOrder).length)) = _
    rw [hw, hlen]
  · intro hne
    rw [List.countP_eq_zero]
    intro e' he'
    obtain ⟨e, he, rfl⟩ := List.mem_map.mp he'
    by_cases hc : e.customer = oldName
    · have hmem : rowToOrder e ∈ (t.filter (fun e => e.customer == oldName)).map rowToOrder := by
        rw [List.mem_map]
        exact ⟨e, List.mem_filter.mpr ⟨he, beq_iff_eq.mpr hc⟩, rfl⟩
      have hcust := foldl_replRow_matched newName
        ((t.filter (fun e => e.customer == oldName)).map rowToOrder)
        (rowToOrder e) hmem e (hwf.1 e he).1 rfl
      rw [Bool.not_eq_true, beq_eq_false_iff_ne, hcust]
      exact fun hh => hne hh.symm
    · rcases foldl_replRow_cases newName
          ((t.filter (fun e => e.customer == oldName)).map rowToOrder) e with hcu | hcu
      · rw [Bool.not_eq_true, beq_eq_false_iff_ne, hcu]
        exact hc
      · rw [Bool.not_eq_true, beq_eq_false_iff_ne, hcu]
        exact fun hh => hne hh.symm

theorem renameCustomer_count_clears_witness :
    WFOrders renameTable ∧
    (∃ t', renameCustomer renameTable "Contoso Ltd." "Relecloud" =
        .ok (t', renameTable.countP (fun e => e.customer == "Contoso Ltd.")) ∧
      ("Contoso Ltd." ≠ "Relecloud" →
        t'.countP (fun e => e.customer == "Contoso Ltd.") = 0)) :=
  ⟨by decide,
    renameCustomer_count_clears renameTable "Contoso Ltd." "Relecloud" (by decide)⟩

/-- Counterexample to claim C4 as stated: when `old = new` and a matching
order exists, the call succeeds (count 1) but the store still holds an
order whose customer equals `old`. -/
theorem renameCustomer_same_name_counterexample :
    renameCustomer demoTable "Contoso Ltd." "Contoso Ltd." = .ok (demoTable, 1) ∧
    demoTable.countP (fun e => e.customer == "Contoso Ltd.") ≠ 0 :=
  ⟨rfl, by decide⟩

/-- Claim C8: a card-action event whose verb is neither `order.accept` nor
`order.cancel`, or whose payload lacks a string `orderId` (missing, empty
or non-string, i.e. the extracted id is `""`), yields the structured
400-equivalent error value and the store is untouched; a valid verb with
the (non-empty) id of an existing order yields status 200 with the
confirmation card as the value. -/
theorem cardAction_bad_request_or_card (t : OrdersTable) (verb : String)
    (orderIdVal : Option JsonScalar) (actedBy : String) :
    ((extractOrderId orderIdVal = "" ∨ (verb ≠ "order.accept" ∧ verb ≠ "order.cancel")) →
      cardActionHandler t verb orderIdVal actedBy =
        (.err 400 "BadRequest" "Unknown action", t)) ∧
    (∀ oid r, orderIdVal = some (.str oid) → oid ≠ "" →
      (verb = "order.accept" ∨ verb = "order.cancel") →
      getEntity t "Orders" oid = some r →
      ∃ t2 o, cardActionHandler t verb orderIdVal actedBy =
        (.card 200 (buildConfirmedCard o actedBy), t2)) := by
  constructor
  · intro h
    have hcond : (extractOrderId orderIdVal == "" ||
        (verb != "order.accept" && verb != "order.cancel")) = true := by
      rcases h with h | ⟨h1, h2⟩
      · rw [Bool.or_eq_true]
        left
        exact beq_iff_eq.mpr h
      · rw [Bool.or_eq_true]
        right
        rw [Bool.and_eq_true, bne_iff_ne, bne_iff_ne]
        exact ⟨h1, h2⟩
    simp only [cardActionHandler]
    rw [hcond]
    rfl
  · intro oid r hval hne hverb hfind
    have hid : extractOrderId orderIdVal = oid := by rw [hval]; rfl
    have hcond : (extractOrderId orderIdVal == "" ||
        (verb != "order.accept" && verb != "order.cancel")) = false := by
      rw [Bool.or_eq_false_iff]
      constructor
      · exact beq_false_of_ne (by rw [hid]; exact hne)
      · rw [Bool.and_eq_false_iff]
        rcases hverb with rfl | rfl
        · left
          simp
        · right
          simp
    simp only [cardActionHandler]
    rw [hcond]
    simp only [Bool.false_eq_true, if_false]
    rw [hid]
    rw [updateOrder_of_found (statusPatch
      (if (verb == "order.accept") = true then OrderStatus.Pending else OrderStatus.Cancelled)) hfind]
    exact ⟨_, _, rfl⟩

theorem cardAction_bad_request_or_card_witness :
    (cardActionHandler demoTable "order.noop" none "Ana" =
      (.err 400 "BadRequest" "Unknown action", demoTable)) ∧
    (∃ t2 o, cardActionHandler demoTable "order.accept"
        (some (.str "ORD-001")) "Ana" =
      (.card 200 (buildConfirmedCard o "Ana"), t2)) :=
  ⟨(cardAction_bad_request_or_card demoTable "order.noop" none "Ana").1
      (Or.inl rfl),
    (cardAction_bad_request_or_card demoTable "order.accept"
        (some (.str "ORD-001")) "Ana").2 "ORD-001" demoRow rfl
      (by decide) (Or.inl rfl) (by decide)⟩

theorem utf8DecodeOne_encode (v : Nat) (hv : v < 1114112) (rest : List Nat) :
    utf8DecodeOne (utf8EncodeNat v ++ rest) = some (v, rest) := by
  unfold utf8EncodeNat
  by_cases h1 : v < 128
  · rw [if_pos h1]
    show utf8DecodeOne (v :: rest) = some (v, rest)
    simp only [utf8DecodeOne]
    rw [if_pos h1]
  · rw [if_neg h1]
    by_cases h2 : v < 2048
    · rw [if_pos h2]
      show utf8DecodeOne ((192 + v / 64) :: (128 + v % 64) :: rest) = some (v, rest)
      simp only [utf8DecodeOne]
      rw [if_neg (by omega : ¬(192 + v / 64 < 128)), if_pos (by omega : 192 + v / 64 < 224)]
      have hval : (192 + v / 64 - 192) * 64 + (128 + v % 64 - 128) = v := by omega
      simp only [hval]
    · rw [if_neg h2]
      by_cases h3 : v < 65536
      · rw [if_pos h3]
        show utf8DecodeOne ((224 + v / 4096) :: (128 + v / 64 % 64) :: (128 + v % 64) :: rest) =
          some (v, rest)
        simp only [utf8DecodeOne]
        rw [if_neg (by omega : ¬(224 + v / 4096 < 128)),
          if_neg (by omega : ¬(224 + v / 4096 < 224)),
          if_pos (by omega : 224 + v / 4096 < 240)]
        have hval : (224 + v / 4096 - 224) * 4096 + (128 + v / 64 % 64 - 128) * 64 +
            (128 + v % 64 - 128) = v := by omega
        simp only [hval]
      · rw [if_neg h3]
        show utf8DecodeOne ((240 + v / 262144) :: (128 + v / 4096 % 64) ::
          (128 + v / 64 % 64) :: (128 + v % 64) :: rest) = some (v, rest)
        simp only [utf8DecodeOne]
        rw [if_neg (by omega : ¬(240 + v / 262144 < 128)),
          if_neg (by omega : ¬(240 + v / 262144 < 224)),
          if_neg (by omega : ¬(240 + v / 262144 < 240))]
        have hval : (240 + v / 262144 - 240) * 262144 + (128 + v / 4096 % 64 - 128) * 4096 +
            (128 + v / 64 % 64 - 128) * 64 + (128 + v % 64 - 128) = v := by omega
        simp only [hval]

theorem utf8EncodeNat_ne_nil (v : Nat) : utf8EncodeNat v ≠ [] := by
  unfold utf8EncodeNat
  split
  · simp
  · split
    · simp
    · split
      · simp
      · simp

theorem utf8EncodeNat_lt_256 (v : Nat) (hv : v < 1114112) :
    ∀ b ∈ utf8EncodeNat v, b < 256 := by
  unfold utf8EncodeNat
  split
  · next h => intro b hb; rw [List.mem_singleton.mp hb]; omega
  · split
    · next h1 h2 =>
      intro b hb
      rcases hb with _ | ⟨_, hb⟩
      · omega
      · rw [List.mem_singleton.mp hb]; omega
    · split
      · next h1 h2 h3 =>
        intro b hb
        rcases hb with _ | ⟨_, hb⟩
        · omega
        · rcases hb with _ | ⟨_, hb⟩
          · omega
          · rw [List.mem_singleton.mp hb]; omega
      · next h1 h2 h3 =>
        intro b hb
        rcases hb with _ | ⟨_, hb⟩
        · omega
        · rcases hb with _ | ⟨_, hb⟩
          · omega
          · rcases hb with _ | ⟨_, hb⟩
            · omega
            · rw [List.mem_singleton.mp hb]; omega

theorem char_toNat_lt (c : Char) : c.toNat < 1114112 := by
  rcases c.valid with h | ⟨h1, h2⟩
  · exact Nat.lt_trans h (by norm_num)
  · exact h2

theorem char_toNat_injective (a b : Char) (h : a.toNat = b.toNat) : a = b :=
  Char.eq_of_val_eq (UInt32.ext h)

theorem listUtf8_cons (c : Char) (l : List Char) :
    listUtf8 (c :: l) = utf8EncodeNat c.toNat ++ listUtf8 l := by
  unfold listUtf8
  rw [List.map_cons, List.flatten_cons]

theorem listUtf8_injective : ∀ l1 l2 : List Char, listUtf8 l1 = listUtf8 l2 → l1 = l2 := by
  intro l1
  induction l1 with
  | nil =>
    intro l2 h
    rcases l2 with _ | ⟨c, l2'⟩
    · rfl
    · rw [listUtf8_cons] at h
      exact absurd (List.append_eq_nil.mp h.symm).1 (utf8EncodeNat_ne_nil c.toNat)
  | cons c l1' ih =>
    intro l2 h
    rcases l2 with _ | ⟨c', l2'⟩
    · rw [listUtf8_cons] at h
      exact absurd (List.append_eq_nil.mp h).1 (utf8EncodeNat_ne_nil c.toNat)
    · rw [listUtf8_cons, listUtf8_cons] at h
      have hd1 := utf8DecodeOne_encode c.toNat (char_toNat_lt c) (listUtf8 l1')
      have hd2 := utf8DecodeOne_encode c'.toNat (char_toNat_lt c') (listUtf8 l2')
      rw [h] at hd1
      rw [hd2] at hd1
      have hpair := Option.some_inj.mp hd1
      have hc : c' = c := char_toNat_injective c' c (congrArg Prod.fst hpair)
      have ht : listUtf8 l2' = listUtf8 l1' := congrArg Prod.snd hpair
      rw [hc, ih l2' ht.symm]

theorem listUtf8_lt_256 (l : List Char) : ∀ b ∈ listUtf8 l, b < 256 := by
  induction l with
  | nil => intro b hb; simp [listUtf8] at hb
  | cons c l' ih =>
    intro b hb
    rw [listUtf8_cons] at hb
    rcases List.mem_append.mp hb with hb | hb
    · exact utf8EncodeNat_lt_256 c.toNat (char_toNat_lt c) b hb
    · exact ih b hb

theorem b64d_b64c : ∀ n, n < 64 → b64d (b64c n) = n := by decide

theorem b64c_ne_pad : ∀ n, n < 64 → b64c n ≠ '=' := by decide

theorem base64Decode_encode (n : Nat) : ∀ bs : List Nat, bs.length ≤ n →
    (∀ b ∈ bs, b < 256) → base64Decode (base64Encode bs) = some bs := by
  induction n with
  | zero =>
    intro bs hlen _
    have : bs = [] := List.eq_nil_of_length_eq_zero (by omega)
    rw [this]
    rfl
  | succ n ih =>
    intro bs hlen hbound
    rcases bs with _ | ⟨b1, _ | ⟨b2, _ | ⟨b3, rest⟩⟩⟩
    · rfl
    · have h1 : b1 < 256 := hbound b1 (by simp)
      show base64Decode [b64c (b1 / 4), b64c (b1 % 4 * 16), '=', '='] = some [b1]
      simp only [base64Decode]
      rw [if_pos trivial, if_pos trivial]
      rw [b64d_b64c (b1 / 4) (by omega), b64d_b64c (b1 % 4 * 16) (by omega)]
      have hval : b1 / 4 * 4 + b1 % 4 * 16 / 16 = b1 := by omega
      rw [hval]
    · have h1 : b1 < 256 := hbound b1 (by simp)
      have h2 : b2 < 256 := hbound b2 (by simp)
      show base64Decode [b64c (b1 / 4), b64c (b1 % 4 * 16 + b2 / 16),
        b64c (b2 % 16 * 4), '='] = some [b1, b2]
      simp only [base64Decode]
      rw [if_pos trivial, if_neg (b64c_ne_pad (b2 % 16 * 4) (by omega))]
      rw [b64d_b64c (b1 / 4) (by omega), b64d_b64c (b1 % 4 * 16 + b2 / 16) (by omega),
        b64d_b64c (b2 % 16 * 4) (by omega)]
      have hv1 : b1 / 4 * 4 + (b1 % 4 * 16 + b2 / 16) / 16 = b1 := by omega
      have hv2 : (b1 % 4 * 16 + b2 / 16) % 16 * 16 + b2 % 16 * 4 / 4 = b2 := by omega
      rw [hv1, hv2]
    · have h1 : b1 < 256 := hbound b1 (by simp)
      have h2 : b2 < 256 := hbound b2 (by simp)
      have h3 : b3 < 256 := hbound b3 (by simp)
      have hrest : base64Decode (base64Encode rest) = some rest := by
        refine ih rest ?_ ?_
        · simp at hlen
          omega
        · intro b hb
          exact hbound b (by simp [hb])
      show base64Decode (b64c (b1 / 4) :: b64c (b1 % 4 * 16 + b2 / 16) ::
        b64c (b2 % 16 * 4 + b3 / 64) :: b64c (b3 % 64) :: base64Encode rest) =
        some (b1 :: b2 :: b3 :: rest)
      simp only [base64Decode]
      rw [if_neg (b64c_ne_pad (b3 % 64) (by omega))]
      rw [hrest]
      rw [b64d_b64c (b1 / 4) (by omega), b64d_b64c (b1 % 4 * 16 + b2 / 16) (by omega),
        b64d_b64c (b2 % 16 * 4 + b3 / 64) (by omega), b64d_b64c (b3 % 64) (by omega)]
      have hv1 : b1 / 4 * 4 + (b1 % 4 * 16 + b2 / 16) / 16 = b1 := by omega
      have hv2 : (b1 % 4 * 16 + b2 / 16) % 16 * 16 + (b2 % 16 * 4 + b3 / 64) / 4 = b2 := by
        omega
      have hv3 : (b2 % 16 * 4 + b3 / 64) % 4 * 64 + b3 % 64 = b3 := by omega
      rw [hv1, hv2, hv3]

theorem base64Encode_injective (bs1 bs2 : List Nat)
    (h1 : ∀ b ∈ bs1, b < 256) (h2 : ∀ b ∈ bs2, b < 256)
    (h : base64Encode bs1 = base64Encode bs2) : bs1 = bs2 := by
  have d1 := base64Decode_encode bs1.length bs1 (Nat.le_refl _) h1
  have d2 := base64Decode_encode bs2.length bs2 (Nat.le_refl _) h2
  rw [h, d2] at d1
  exact (Option.some_inj.mp d1).symm

/-- Counterexample to claim C9 as stated: the row-key encoding is NOT
injective — the distinct conversation ids `"aa"` (base64 `YWE=`) and
`"aa?"` (base64 `YWE/`) produce the same row key `"YWE_"`, because the
replacement maps both `=` and `/` to `_`. -/
theorem toRowKey_collision_counterexample :
    toRowKey "aa" = toRowKey "aa?" ∧ ("aa" : String) ≠ "aa?" :=
  ⟨rfl, by decide⟩

/-- Claim C9, amended: the row-key encoding is injective on conversation
ids whose base64 encoding contains none of the replaced characters `/`,
`+`, `=` (on such ids the replacement is the identity and base64 itself is
injective); in general it is not injective (see the counterexample). -/
theorem toRowKey_injective_on_clean (a b : String)
    (ha : ∀ c ∈ base64Encode (utf8Bytes a), c ≠ '/' ∧ c ≠ '+' ∧ c ≠ '=')
    (hb : ∀ c ∈ base64Encode (utf8Bytes b), c ≠ '/' ∧ c ≠ '+' ∧ c ≠ '=')
    (h : toRowKey a = toRowKey b) : a = b := by
  have hmk : ((base64Encode (utf8Bytes a)).map replaceSpecial) =
      ((base64Encode (utf8Bytes b)).map replaceSpecial) := by
    have := congrArg String.data h
    exact this
  have hida : ((base64Encode (utf8Bytes a)).map replaceSpecial) =
      base64Encode (utf8Bytes a) := by
    have hcong : ∀ c ∈ base64Encode (utf8Bytes a), replaceSpecial c = id c := by
      intro c hc
      unfold replaceSpecial
      rw [if_neg]
      · rfl
      · obtain ⟨n1, n2, n3⟩ := ha c hc
        rintro (rfl | rfl | rfl)
        · exact n1 rfl
        · exact n2 rfl
        · exact n3 rfl
    rw [List.map_congr_left hcong, List.map_id]
  have hidb : ((base64Encode (utf8Bytes b)).map replaceSpecial) =
      base64Encode (utf8Bytes b) := by
    have hcong : ∀ c ∈ base64Encode (utf8Bytes b), replaceSpecial c = id c := by
      intro c hc
      unfold replaceSpecial
      rw [if_neg]
      · rfl
      · obtain ⟨n1, n2, n3⟩ := hb c hc
        rintro (rfl | rfl | rfl)
        · exact n1 rfl
        · exact n2 rfl
        · exact n3 rfl
    rw [List.map_congr_left hcong, List.map_id]
  rw [hida, hidb] at hmk
  have hbytes : utf8Bytes a = utf8Bytes b :=
    base64Encode_injective (utf8Bytes a) (utf8Bytes b)
      (listUtf8_lt_256 a.data) (listUtf8_lt_256 b.data) hmk
  have hdata : a.data = b.data := listUtf8_injective a.data b.data hbytes
  cases a
  cases b
  exact congrArg String.mk hdata

theorem toRowKey_injective_on_clean_witness :
    (∀ c ∈ base64Encode (utf8Bytes "19:abc"), c ≠ '/' ∧ c ≠ '+' ∧ c ≠ '=') ∧
    toRowKey "19:abc" = toRowKey "19:abc" ∧ ("19:abc" : String) = "19:abc" :=
  ⟨by decide, rfl,
    toRowKey_injective_on_clean "19:abc" "19:abc" (by decide) (by decide) rfl⟩

/-- Claim C10: `removeConversation` always resolves (its embedding is a
total function — the `.catch` swallows every rejection of the underlying
delete, store-unavailable failures included, not only the already-absent
case): the result is either the untouched table (failure or no-op) or the
table with exactly the keyed registration removed; every row with a
different key survives untouched. -/
theorem removeConversation_total_frame (faulty : Bool) (t : SubsTable)
    (conversationId : String) :
    (removeConversation faulty t conversationId = t ∨
      removeConversation faulty t conversationId =
        t.filter (fun e => !(e.partitionKey == "BotSub" && e.rowKey == toRowKey conversationId))) ∧
    (∀ e ∈ t, e.rowKey ≠ toRowKey conversationId →
      e ∈ removeConversation faulty t conversationId) := by
  have hmain : removeConversation faulty t conversationId = t ∨
      removeConversation faulty t conversationId =
        t.filter (fun e => !(e.partitionKey == "BotSub" && e.rowKey == toRowKey conversationId)) := by
    unfold removeConversation deleteEntitySub
    by_cases hf : faulty = true
    · rw [if_pos hf]
      left
      rfl
    · rw [if_neg hf]
      by_cases hany : (t.any (fun e =>
          e.partitionKey == "BotSub" && e.rowKey == toRowKey conversationId)) = true
      · rw [hany]
        right
        rfl
      · rw [Bool.not_eq_true] at hany
        rw [hany]
        left
        rfl
  refine ⟨hmain, ?_⟩
  intro e he hne
  rcases hmain with hm | hm
  · rw [hm]
    exact he
  · rw [hm]
    rw [List.mem_filter]
    refine ⟨he, ?_⟩
    rw [Bool.not_eq_eq_eq_not]
    show (e.partitionKey == "BotSub" && e.rowKey == toRowKey conversationId) = false
    rw [Bool.and_eq_false_iff]
    right
    exact beq_false_of_ne hne

theorem removeConversation_total_frame_witness :
    (removeConversation true demoSubs "conv-B" = demoSubs ∨
      removeConversation true demoSubs "conv-B" =
        demoSubs.filter (fun e => !(e.partitionKey == "BotSub" && e.rowKey == toRowKey "conv-B"))) ∧
    (∀ e ∈ demoSubs, e.rowKey ≠ toRowKey "conv-B" →
      e ∈ removeConversation true demoSubs "conv-B") :=
  removeConversation_total_frame true demoSubs "conv-B"

theorem serial_createOrder_ids_exact_witness :
    ∃ t, serialCreates (fun _ => demoData) 3 = .ok t ∧
      t.map (fun e => e.rowKey) = (List.range' 1 3).map ordId ∧
      (∀ s, s ∈ t.map (fun e => OrderRow.id e) ↔ ∃ i, 1 ≤ i ∧ i ≤ 3 ∧ s = ordId i) ∧
      (t.map (fun e => OrderRow.id e)).Nodup :=
  serial_createOrder_ids_exact (fun _ => demoData) 3

theorem listOrders_sorted_desc_witness :
    List.Chain' (fun a b => b.id ≤ a.id) (listOrders demoTable) :=
  listOrders_sorted_desc demoTable
